import Mathlib

/-!
Verification of the reference-counted, copy-on-write buffer library
(`src/common/buffer.cc`): the raw-buffer/ptr reference-counting model,
the page-alignment consolidation pass, the vectored-write loop, the
base64 hooks and `read_file`.

Machine `unsigned` arithmetic is modelled over `Nat`, with an explicit
`% 2^32` at the places where wraparound changes observable behaviour
(the sub-range bounds assert and the encode allocation size).
-/

/-- Modulus of the 32-bit `unsigned` arithmetic used by the C++ code. -/
def M32 : Nat := 2 ^ 32

/-! ## buffer::raw and the heap of reference-counted raw buffers

`buffer::raw` (declared in the missing header, used throughout
`buffer.cc`) is an allocation holding `len` bytes and an atomic
reference count `nref`.  We model the set of live raw buffers as a heap
mapping identities (allocation addresses) to `Raw` records; `none`
means the buffer at that identity was deleted (or never existed). -/

/-- One raw buffer: its byte content and its reference count.
The byte count `len` of the C++ object is `data.length`. -/
structure Raw where
  data : List Nat
  nref : Nat
deriving DecidableEq

/-- The heap of live raw buffers.  `bufs i = none` means no live raw
buffer has identity `i`; `next` is the next fresh identity, so every
live buffer of a well-formed heap has identity `< next`. -/
structure Heap where
  bufs : Nat → Option Raw
  next : Nat

/-- A `buffer::ptr`: a (possibly null) reference to a raw buffer plus
an offset and length into it (`_raw`, `_off`, `_len`). -/
structure Ptr where
  raw : Option Nat
  off : Nat
  len : Nat
deriving DecidableEq

/-- Increment the reference count of the raw buffer at identity `i`
(`_raw->nref.inc()`); no-op when the identity is dead (which for the
code would be a use-after-free). -/
def incref (h : Heap) (i : Nat) : Heap :=
  match h.bufs i with
  | none => h
  | some r => ⟨fun a => if a = i then some ⟨r.data, r.nref + 1⟩ else h.bufs a, h.next⟩

/-- Models `buffer::ptr::release` (buffer.cc:139-148): if the ptr holds
a raw, decrement its count, delete the raw when the count reaches zero,
and null out `_raw`. -/
def release (h : Heap) (p : Ptr) : Heap × Ptr :=
  match p.raw with
  | none => (h, p)
  | some i =>
    match h.bufs i with
    | none => (h, { p with raw := none })
    | some r =>
      if r.nref - 1 = 0 then
        (⟨fun a => if a = i then none else h.bufs a, h.next⟩, { p with raw := none })
      else
        (⟨fun a => if a = i then some ⟨r.data, r.nref - 1⟩ else h.bufs a, h.next⟩,
         { p with raw := none })

/-- Models `buffer::ptr::operator=` (buffer.cc:103-118) for the usual
case where source and destination are distinct C++ objects: increment
the new raw's count, release the old reference, then copy the fields. -/
def assign (h : Heap) (dst src : Ptr) : Heap × Ptr :=
  match src.raw with
  | some j =>
    let h1 := incref h j
    let h2 := (release h1 dst).1
    (h2, ⟨some j, src.off, src.len⟩)
  | none =>
    ((release h dst).1, ⟨none, 0, 0⟩)

/-- Models `buffer::ptr::operator=` (buffer.cc:103-118) when the source
aliases the destination (`p = p`, so `this == &p`).  The trace differs
from `assign`: `release()` zeroes the shared `_raw` field
(buffer.cc:146) before line 110 re-reads `p._raw`, so the second
`if (p._raw)` sees a null pointer and takes the `_off = _len = 0`
branch. -/
def assign_self (h : Heap) (p : Ptr) : Heap × Ptr :=
  match p.raw with
  | some j =>
    let h1 := incref h j
    let h2 := (release h1 p).1
    (h2, ⟨none, 0, 0⟩)
  | none =>
    ((release h p).1, ⟨none, 0, 0⟩)

/-- Models `buffer::ptr::clone_in_place` (buffer.cc:124-129): allocate
an independent clone of the raw (`_raw->clone()`; the clone copies the
bytes and starts unreferenced — `raw::clone` lives in the missing
header; modelled from the spec: "clone() returns a new independent
RawBuffer with the same length and bytes"), release the old reference,
take a reference on the clone and rebind `_raw` to it. -/
def clone_in_place (h : Heap) (p : Ptr) : Heap × Ptr :=
  match p.raw with
  | none => (h, p)
  | some i =>
    match h.bufs i with
    | none => (h, p)
    | some r =>
      let j := h.next
      let h1 : Heap := ⟨fun a => if a = j then some ⟨r.data, 0⟩ else h.bufs a, h.next + 1⟩
      let h2 := (release h1 p).1
      let h3 := incref h2 j
      (h3, ⟨some j, p.off, p.len⟩)

/-- Models `buffer::ptr::do_cow` (buffer.cc:130-137): clone in place
exactly when the raw is shared (`nref.read() > 1`), returning whether a
clone occurred. -/
def do_cow (h : Heap) (p : Ptr) : Heap × Ptr × Bool :=
  match p.raw with
  | none => (h, p, false)
  | some i =>
    match h.bufs i with
    | none => (h, p, false)
    | some r =>
      if 1 < r.nref then ((clone_in_place h p).1, (clone_in_place h p).2, true)
      else (h, p, false)

/-- Models the sub-range constructor
`ptr::ptr(const ptr& p, unsigned o, unsigned l)` (buffer.cc:97-102):
`assert(o+l <= p._len)` — computed in 32-bit unsigned arithmetic —
then `assert(_raw)`, then share the raw (`_raw->nref.inc()`) with
`_off = p._off + o` (again 32-bit).  A failed assert aborts, modelled
as `none`; a ptr whose raw identity is dead would be a use-after-free
and is also modelled as `none`. -/
def ptr_subrange (h : Heap) (p : Ptr) (o l : Nat) : Option (Heap × Ptr) :=
  if (o + l) % M32 ≤ p.len then
    match p.raw with
    | some i =>
      match h.bufs i with
      | some r =>
        some (⟨fun a => if a = i then some ⟨r.data, r.nref + 1⟩ else h.bufs a, h.next⟩,
              ⟨some i, (p.off + o) % M32, l⟩)
      | none => none
    | none => none
  else none

/-- The bytes viewed through a ptr: the `len`-byte window of its raw's
content starting at `off` (what reading `c_str()[0..len)` yields). -/
def view (h : Heap) (p : Ptr) : List Nat :=
  match p.raw with
  | none => []
  | some i =>
    match h.bufs i with
    | none => []
    | some r => (r.data.drop p.off).take p.len

/-- In-place content mutation through a ptr: `c_str()[n] = v`, i.e.
overwrite byte `off + n` of the underlying raw buffer. -/
def setByte (h : Heap) (p : Ptr) (n v : Nat) : Heap :=
  match p.raw with
  | none => h
  | some i =>
    match h.bufs i with
    | none => h
    | some r =>
      ⟨fun a => if a = i then some ⟨r.data.set (p.off + n) v, r.nref⟩ else h.bufs a, h.next⟩

/-! ## buffer::list::rebuild_page_aligned (buffer.cc:173-208)

A list segment is modelled by the address of its first viewed byte
(`c_str()`, i.e. raw base + offset) and its viewed bytes.  The page
size is a parameter `PG` (the platform's `PAGE_SIZE`). -/

/-- One `buffer::list` segment as the consolidation pass sees it:
start address of the viewed bytes and the viewed bytes themselves
(its length is `bytes.length`). -/
structure Seg where
  addr : Nat
  bytes : List Nat
deriving DecidableEq

/-- Models `p->is_page_aligned() && p->is_n_page_sized()` (the keep
test at buffer.cc:178; the two predicates live in the missing header;
modelled from the spec: "page-aligned (its starting address is a
multiple of the page size) and page-sized (its length is a multiple of
the page size)"). -/
def conforming (PG : Nat) (s : Seg) : Prop :=
  s.addr % PG = 0 ∧ s.bytes.length % PG = 0

instance (PG : Nat) (s : Seg) : Decidable (conforming PG s) :=
  inferInstanceAs (Decidable (_ ∧ _))

/-- Models `unaligned.rebuild()` + splice (buffer.cc:205-206) for a
consumed run with concatenated bytes `b`: one fresh page-aligned raw
holding exactly those bytes (`list::rebuild` lives in the missing
header; modelled from the spec: "collect their concatenated bytes into
one new page-aligned RawBuffer").  A fresh page-aligned allocation is
modelled with the canonical aligned base address 0. -/
def mkAligned (b : List Nat) : Seg := ⟨0, b⟩

/-- The consolidation walk of `rebuild_page_aligned` (buffer.cc:175-207).
State `none` is the top of the outer `while` (no run in progress);
state `some acc` is inside the `do`-`while` with `acc` the bytes of the
segments consumed so far (the code's `offset` equals `acc.length`).
The run ends when the next segment is aligned-and-sized *and* the
accumulated offset is a page multiple (`!is_page_aligned ||
!is_n_page_sized || (offset & ~PAGE_MASK)` negated), or at the end of
the list. -/
def rebuildGo (PG : Nat) : Option (List Nat) → List Seg → List Seg
  | none, [] => []
  | some acc, [] => [mkAligned acc]
  | none, s :: rest =>
    if conforming PG s then s :: rebuildGo PG none rest
    else rebuildGo PG (some s.bytes) rest
  | some acc, s :: rest =>
    if conforming PG s ∧ acc.length % PG = 0 then
      mkAligned acc :: s :: rebuildGo PG none rest
    else rebuildGo PG (some (acc ++ s.bytes)) rest

/-- Models `buffer::list::rebuild_page_aligned` (buffer.cc:173-208) on
the sequence of segments. -/
def rebuild_page_aligned (PG : Nat) (l : List Seg) : List Seg :=
  rebuildGo PG none l

/-- The flattened logical bytes of a segment list (concatenation of
the segments' viewed bytes, in order). -/
def segBytes : List Seg → List Nat
  | [] => []
  | s :: rest => s.bytes ++ segBytes rest

/-- Shape of a post-consolidation segment list: every segment is
aligned-and-sized except possibly a final remainder, which sits in a
fresh page-aligned allocation (base address 0 in the model). -/
inductive Canonical (PG : Nat) : List Seg → Prop
  | nil : Canonical PG []
  | rem (s : Seg) : s.addr = 0 → Canonical PG [s]
  | keep (s : Seg) (l : List Seg) :
      conforming PG s → Canonical PG l → Canonical PG (s :: l)

/-! ## buffer::list::write_fd (buffer.cc:277-327)

The descriptor is modelled by a script of per-`writev`-call responses:
the kernel either accepts some `k` bytes (writing the first
`min k bytes` bytes of the submitted vector), is interrupted (`EINTR`),
or fails hard with an errno.  The model returns the byte stream
delivered to the descriptor (the observable effect of the calls), or
the negated errno, mirroring the `int` return of `write_fd`;
`none` means the response script ran out (never happens under the
theorems' hypotheses). -/

/-- One `::writev` outcome: accept `k` bytes, interrupt, or hard
errno `e`. -/
inductive WRes where
  | ok (k : Nat)
  | intr
  | err (e : Nat)
deriving DecidableEq

/-- Concatenation of a list of byte chunks (the flattened view of a
vector of iovec elements, or of list segments). -/
def flatB : List (List Nat) → List Nat
  | [] => []
  | x :: xs => x ++ flatB xs

/-- The partial-write recovery of buffer.cc:309-319: pop every fully
written vector element (`while (wrote >= start[0].iov_len)`), then trim
the first partially written element by the residual count
(`iov_len -= wrote; iov_base += wrote`). -/
def advance : Nat → List (List Nat) → List (List Nat)
  | _, [] => []
  | w, e :: rest => if e.length ≤ w then advance (w - e.length) rest else e.drop w :: rest

/-- The `retry` loop of buffer.cc:299-321 flushing one iovec batch:
issue `writev`; on `EINTR` retry with the same vector; on another
error return the negated errno; on a partial write (`wrote < bytes`)
advance past the written bytes and retry; on a complete write the
batch's bytes have all been delivered. -/
def flushOne : List WRes → List (List Nat) → Option (List WRes × Except Int (List Nat))
  | [], _ => none
  | WRes.intr :: rs, iov => flushOne rs iov
  | WRes.err e :: rs, _ => some (rs, Except.error (-(e : Int)))
  | WRes.ok k :: rs, iov =>
    let bytes := (flatB iov).length
    let w := min k bytes
    if w < bytes then
      match flushOne rs (advance w iov) with
      | none => none
      | some (rs2, Except.error e) => some (rs2, Except.error e)
      | some (rs2, Except.ok tail) => some (rs2, Except.ok ((flatB iov).take w ++ tail))
    else
      some (rs, Except.ok (flatB iov))

/-- The iovec batching of buffer.cc:284-296: walk the segments, adding
each non-empty one to the current batch, and flush when the batch holds
`IOV_MAX - 1` elements or the segment list is exhausted (an empty list
issues no `writev` at all; a final batch may be empty). -/
def buildBatches (iovmax : Nat) (acc : List (List Nat)) : List (List Nat) → List (List (List Nat))
  | [] => []
  | s :: rest =>
    let acc2 := if s.length > 0 then acc ++ [s] else acc
    if acc2.length = iovmax - 1 ∨ rest = [] then
      acc2 :: buildBatches iovmax [] rest
    else buildBatches iovmax acc2 rest

/-- Flush the batches in order, threading the response script;
the first hard error aborts with the negated errno
(`return -err`, buffer.cc:305). -/
def runBatches : List WRes → List (List (List Nat)) → Option (Except Int (List Nat))
  | _, [] => some (Except.ok [])
  | rs, b :: bs =>
    match flushOne rs b with
    | none => none
    | some (_, Except.error e) => some (Except.error e)
    | some (rs2, Except.ok d) =>
      match runBatches rs2 bs with
      | none => none
      | some (Except.error e) => some (Except.error e)
      | some (Except.ok tail) => some (Except.ok (d ++ tail))

/-- Models `buffer::list::write_fd` (buffer.cc:277-327) against a
response script: the delivered byte stream on success, the negated
errno on a hard error. -/
def write_fd (iovmax : Nat) (resps : List WRes) (segs : List (List Nat)) :
    Option (Except Int (List Nat)) :=
  runBatches resps (buildBatches iovmax [] segs)

/-- A response that accepts at least one byte. -/
def okPos : WRes → Bool
  | WRes.ok k => 1 ≤ k
  | _ => false

/-- Every response in the script accepts at least one byte (the
claim's "accepts only an arbitrary k >= 1 bytes per call"). -/
def AllOk (rs : List WRes) : Prop := ∀ r ∈ rs, okPos r = true

instance (rs : List WRes) : Decidable (AllOk rs) :=
  inferInstanceAs (Decidable (∀ r ∈ rs, okPos r = true))

/-! ## base64 hooks (buffer.cc:150-171)

`ceph_armor` / `ceph_unarmor` are the external armor codec (out of
scope per the spec, §6), passed as parameters: the encoder maps the
flattened source bytes to the encoded bytes it writes (its return value
is their count); the decoder returns `none` for a negative result and
`some decoded` otherwise.  The missing-header list operations are
modelled from the spec: `length()`/`c_str()` give the flattened bytes,
`push_back`/`append` append one segment, `set_length` keeps the
first `l` written bytes. -/

/-- The destination allocation of `encode_base64` (buffer.cc:152):
`length() * 4 / 3 + 3` in 32-bit unsigned arithmetic. -/
def encode_alloc_size (L : Nat) : Nat := L * 4 % M32 / 3 + 3

/-- Models `buffer::list::encode_base64` (buffer.cc:150-156): allocate
`encode_alloc_size length()` bytes, run the armor encoder over the
flattened bytes, set the destination length to the encoder's reported
size and push the single segment onto `o`.  The first component
records the allocation size, the second the resulting output list. -/
def encode_base64 (armor : List Nat → List Nat) (self o : List (List Nat)) :
    Nat × List (List Nat) :=
  (encode_alloc_size (flatB self).length, o ++ [armor (flatB self)])

/-- Models `buffer::list::decode_base64` (buffer.cc:158-171): run the
armor decoder over the flattened bytes of `e`; on a negative result
throw `malformed_input` whose message is built by `hexdump(oss)` —
a member call on `this`, so the bytes rendered into the message are
the *destination* list's flattened content (the error payload models
those hexdumped bytes); on success push the decoded segment onto
`this`.  Nothing is appended on the error path. -/
def decode_base64 (unarmor : List Nat → Option (List Nat)) (self e : List (List Nat)) :
    Except (List Nat) (List (List Nat)) :=
  match unarmor (flatB e) with
  | none => Except.error (flatB self)
  | some d => Except.ok (self ++ [d])

/-! ## buffer::list::read_file (buffer.cc:211-250)

The filesystem is a parameter: the final outcome of the
`TEMP_FAILURE_RETRY`'d open, the `fstat` size (`none` models a failing
`fstat`, whose return value the code never checks — the `struct stat`
was `memset` to zero at buffer.cc:223, so the size then reads as 0),
and `safe_read`'s outcome for a requested byte count (`safe_io` is
repository code outside `src/`; modelled from the spec: read up to the
requested count, returning the bytes read or a negated-errno error). -/

/-- The log messages `read_file` can emit via `derr`. -/
inductive LogMsg where
  | openError
  | readError
  | prematureEOF
deriving DecidableEq

/-- The environment `read_file` runs against. -/
structure FileEnv where
  openResult : Except Nat Unit
  statSize : Option Nat
  read : Nat → Except Nat (List Nat)

/-- Observable outcome of `read_file`: the returned code, the segment
list after the call, whether the descriptor was opened and whether it
was closed again, and the messages logged. -/
structure ReadResult where
  ret : Int
  segs : List (List Nat)
  fdOpened : Bool
  fdClosed : Bool
  logs : List LogMsg
deriving DecidableEq

/-- Models `buffer::list::read_file` (buffer.cc:211-250): open (fail →
return `-errno`, logging unless `silent`); `fstat` into a zeroed
`struct stat` with unchecked return; `safe_read` of `st.st_size` bytes
into a fresh page-aligned buffer (error → close, return the negative
value, logging unless `silent`; fewer bytes than `st.st_size` → log a
premature-EOF warning unless `silent`); close, set the buffer's length
to the bytes actually read, append it, return 0. -/
def read_file (env : FileEnv) (silent : Bool) (l : List (List Nat)) : ReadResult :=
  match env.openResult with
  | Except.error err =>
    ⟨-(err : Int), l, false, false, if silent then [] else [LogMsg.openError]⟩
  | Except.ok _ =>
    let size := env.statSize.getD 0
    match env.read size with
    | Except.error e =>
      ⟨-(e : Int), l, true, true, if silent then [] else [LogMsg.readError]⟩
    | Except.ok d =>
      ⟨0, l ++ [d], true, true,
       if d.length ≠ size then (if silent then [] else [LogMsg.prematureEOF]) else []⟩

/-! ### Concrete inputs used by witnesses and counterexamples -/

/-- 4096 bytes of value 5: one page worth of payload. -/
def pgBytes : List Nat := List.replicate 4096 5

/-- 4096 bytes of value 3: one page worth of payload. -/
def wBytes : List Nat := List.replicate 4096 3

/-- Heap with one raw buffer `[9]` at identity 0, reference count 1. -/
def h5 : Heap := ⟨fun a => if a = 0 then some ⟨[9], 1⟩ else none, 1⟩

/-- The sole ptr referencing `h5`'s raw buffer. -/
def p5 : Ptr := ⟨some 0, 0, 1⟩

/-- Heap with one raw buffer `[7]` at identity 0, reference count 1. -/
def h9 : Heap := ⟨fun a => if a = 0 then some ⟨[7], 1⟩ else none, 1⟩

/-- A ptr of length 1 over `h9`'s raw buffer. -/
def p9 : Ptr := ⟨some 0, 0, 1⟩

/-- Heap for the COW-isolation witness: one raw `[10, 20, 30]` shared
by two ptrs (reference count 2). -/
def hW3 : Heap := ⟨fun a => if a = 0 then some ⟨[10, 20, 30], 2⟩ else none, 1⟩

/-- Heap for the `do_cow` witness: raw `[1, 2]` uniquely owned at
identity 0, raw `[3]` shared (count 2) at identity 1. -/
def hW4 : Heap :=
  ⟨fun a => if a = 0 then some ⟨[1, 2], 1⟩ else if a = 1 then some ⟨[3], 2⟩ else none, 2⟩

/-- An armor decoder that always reports failure. -/
def u6 : List Nat → Option (List Nat) := fun _ => none

/-- An armor decoder that always decodes to `[42]`. -/
def u6b : List Nat → Option (List Nat) := fun _ => some [42]

/-- An armor encoder appending one padding byte. -/
def armor7 : List Nat → List Nat := fun x => x ++ [61]

/-- File environment: open succeeds, stat reports 4 bytes, the read
returns only 2 of them (short read). -/
def env8 : FileEnv := ⟨Except.ok (), some 4, fun _ => Except.ok [1, 2]⟩

/-- File environment: open succeeds, fstat fails (size reads as 0 from
the zeroed struct), reading 0 bytes yields no bytes. -/
def env10 : FileEnv := ⟨Except.ok (), none, fun _ => Except.ok []⟩

/-! ## Theorems -/

theorem pgBytes_length : pgBytes.length = 4096 := List.length_replicate 4096 5

theorem wBytes_length : wBytes.length = 4096 := List.length_replicate 4096 3

/-- A consolidated segment (fresh page-aligned allocation) whose byte
count is a page multiple is aligned-and-sized. -/
theorem conforming_mkAligned (PG : Nat) (b : List Nat) (hb : b.length % PG = 0) :
    conforming PG (mkAligned b) :=
  ⟨Nat.zero_mod PG, hb⟩

/-- Every list the consolidation walk produces is canonical, from
either walk state. -/
theorem rebuildGo_canonical (PG : Nat) (l : List Seg) :
    (∀ acc, Canonical PG (rebuildGo PG (some acc) l))
    ∧ Canonical PG (rebuildGo PG none l) := by
  induction l with
  | nil =>
    refine ⟨fun acc => ?_, Canonical.nil⟩
    exact Canonical.rem _ rfl
  | cons s rest ih =>
    constructor
    · intro acc
      by_cases hc : conforming PG s ∧ acc.length % PG = 0
      · simp only [rebuildGo, if_pos hc]
        exact Canonical.keep _ _ (conforming_mkAligned PG acc hc.2)
          (Canonical.keep _ _ hc.1 ih.2)
      · simp only [rebuildGo, if_neg hc]
        exact ih.1 _
    · by_cases hc : conforming PG s
      · simp only [rebuildGo, if_pos hc]
        exact Canonical.keep _ _ hc ih.2
      · simp only [rebuildGo, if_neg hc]
        exact ih.1 _

/-- A canonical list is a fixed point of the consolidation walk. -/
theorem canonical_fixed (PG : Nat) {m : List Seg} (hm : Canonical PG m) :
    rebuildGo PG none m = m := by
  induction hm with
  | nil => rfl
  | rem s hs =>
    by_cases hc : conforming PG s
    · simp [rebuildGo, hc]
    · simp only [rebuildGo, if_neg hc]
      cases s with
      | mk a b =>
        simp only [Seg.mk.injEq] at hs ⊢
        simp [mkAligned, hs.symm]
  | keep s l hc _ ih => simp [rebuildGo, hc, ih]

/-- The walk preserves the flattened bytes (the run accumulator is
emitted in front of whatever the rest of the walk produces). -/
theorem rebuildGo_flatten (PG : Nat) (l : List Seg) :
    (∀ acc, segBytes (rebuildGo PG (some acc) l) = acc ++ segBytes l)
    ∧ segBytes (rebuildGo PG none l) = segBytes l := by
  induction l with
  | nil =>
    refine ⟨fun acc => ?_, rfl⟩
    simp [rebuildGo, segBytes, mkAligned]
  | cons s rest ih =>
    constructor
    · intro acc
      by_cases hc : conforming PG s ∧ acc.length % PG = 0
      · simp [rebuildGo, hc, segBytes, mkAligned, ih.2]
      · simp [rebuildGo, hc, ih.1, segBytes]
    · by_cases hc : conforming PG s
      · simp [rebuildGo, hc, segBytes, ih.2]
      · simp [rebuildGo, hc, ih.1, segBytes]

/-- In a canonical list every segment except possibly the last is
aligned-and-sized. -/
theorem canonical_dropLast (PG : Nat) {m : List Seg} (hm : Canonical PG m) :
    ∀ s ∈ m.dropLast, conforming PG s := by
  induction hm with
  | nil => intro s hs; simp at hs
  | rem t _ => intro s hs; simp at hs
  | keep t l hc _ ih =>
    intro s hs
    cases l with
    | nil => simp at hs
    | cons u v =>
      rw [List.dropLast_cons₂] at hs
      rcases List.mem_cons.mp hs with h | h
      · exact h ▸ hc
      · exact ih s h

/-- A list all of whose segments are aligned-and-sized is untouched by
the walk. -/
theorem rebuildGo_all_conforming (PG : Nat) (l : List Seg)
    (h : ∀ s ∈ l, conforming PG s) : rebuildGo PG none l = l := by
  induction l with
  | nil => rfl
  | cons s rest ih =>
    have hs := h s (by simp)
    simp only [rebuildGo, if_pos hs]
    rw [ih fun t ht => h t (by simp [ht])]

/-- C2 (amended): `rebuild_page_aligned` is idempotent; every segment
of the result except possibly the final remainder is page-aligned and
page-sized (the remainder sits in a fresh page-aligned allocation);
the flattened logical bytes are unchanged; and a list all of whose
segments are already page-aligned-and-page-sized is left untouched.
(The original claim's unconditional "conforming segments are left
untouched" fails: a conforming segment reached while the running run
offset is not page-aligned is absorbed into the consolidation.) -/
theorem rebuild_page_aligned_amended (PG : Nat) (l : List Seg) :
    rebuild_page_aligned PG (rebuild_page_aligned PG l) = rebuild_page_aligned PG l
    ∧ segBytes (rebuild_page_aligned PG l) = segBytes l
    ∧ (∀ s ∈ (rebuild_page_aligned PG l).dropLast, conforming PG s)
    ∧ ((∀ s ∈ l, conforming PG s) → rebuild_page_aligned PG l = l) :=
  ⟨canonical_fixed PG (rebuildGo_canonical PG l).2,
   (rebuildGo_flatten PG l).2,
   canonical_dropLast PG (rebuildGo_canonical PG l).2,
   fun h => rebuildGo_all_conforming PG l h⟩

/-- C2 witness: a single already page-aligned, page-sized segment
(page size 4096) is left untouched, and the flattened bytes are
preserved. -/
theorem rebuild_page_aligned_amended_witness :
    rebuild_page_aligned 4096 [Seg.mk 4096 wBytes] = [Seg.mk 4096 wBytes]
    ∧ segBytes (rebuild_page_aligned 4096 [Seg.mk 4096 wBytes])
      = segBytes [Seg.mk 4096 wBytes] :=
  ⟨(rebuild_page_aligned_amended 4096 _).2.2.2 (by simp [conforming, wBytes_length]),
   (rebuild_page_aligned_amended 4096 _).2.1⟩

/-- C2 counterexample: with page size 4096, the page-aligned and
page-sized segment `⟨4096, pgBytes⟩` following the non-conforming
segment `⟨1, [7]⟩` is absorbed into the consolidated run (the running
offset 1 is not page-aligned when it is reached), so it is *not* left
untouched, refuting the claim's unconditional untouched clause. -/
theorem rebuild_page_aligned_untouched_cex :
    conforming 4096 (Seg.mk 4096 pgBytes)
    ∧ Seg.mk 4096 pgBytes ∈ [Seg.mk 1 [7], Seg.mk 4096 pgBytes]
    ∧ Seg.mk 4096 pgBytes ∉ rebuild_page_aligned 4096 [Seg.mk 1 [7], Seg.mk 4096 pgBytes]
    ∧ rebuild_page_aligned 4096 [Seg.mk 1 [7], Seg.mk 4096 pgBytes]
        = [Seg.mk 0 (7 :: pgBytes)] := by
  have heval : rebuild_page_aligned 4096 [Seg.mk 1 [7], Seg.mk 4096 pgBytes]
      = [Seg.mk 0 (7 :: pgBytes)] := by
    simp [rebuild_page_aligned, rebuildGo, conforming, mkAligned]
  refine ⟨⟨by norm_num, by rw [pgBytes_length]⟩, by simp, ?_, heval⟩
  rw [heval]
  simp [pgBytes_length]

/-! ### write_fd (C1) -/

theorem flatB_append (a b : List (List Nat)) : flatB (a ++ b) = flatB a ++ flatB b := by
  induction a with
  | nil => rfl
  | cons x xs ih => simp [flatB, ih]

/-- The partial-write recovery drops exactly the already-written bytes
from the flattened view of the vector. -/
theorem advance_flat (iov : List (List Nat)) : ∀ w, flatB (advance w iov) = (flatB iov).drop w := by
  induction iov with
  | nil => intro w; simp [advance, flatB]
  | cons e rest ih =>
    intro w
    by_cases hle : e.length ≤ w
    · simp only [advance, if_pos hle, flatB]
      rw [ih, List.drop_append_eq_append_drop, List.drop_eq_nil_of_le hle, List.nil_append]
    · simp only [advance, if_neg hle, flatB]
      rw [List.drop_append_eq_append_drop]
      have h0 : w - e.length = 0 := by omega
      rw [h0, List.drop_zero]

/-- The retry loop flushes one batch completely whenever every call
accepts at least one byte and the script is long enough, delivering the
batch's flattened bytes exactly; at most bytes+1 responses are used. -/
theorem flushOne_allok (rs : List WRes) :
    ∀ (iov : List (List Nat)), AllOk rs → (flatB iov).length < rs.length →
    ∃ rs2, flushOne rs iov = some (rs2, Except.ok (flatB iov))
      ∧ AllOk rs2 ∧ rs.length ≤ rs2.length + (flatB iov).length + 1 := by
  induction rs with
  | nil =>
    intro iov _ hlen
    simp only [List.length_nil] at hlen
    omega
  | cons r rest ih =>
    intro iov hok hlen
    have hr : okPos r = true := hok r (by simp)
    simp only [List.length_cons] at hlen
    have hrest : AllOk rest := fun t ht => hok t (by simp [ht])
    cases r with
    | intr => simp [okPos] at hr
    | err e => simp [okPos] at hr
    | ok k =>
      have hk : 1 ≤ k := by simpa [okPos] using hr
      by_cases hkb : k < (flatB iov).length
      · have hmin : min k (flatB iov).length = k := min_eq_left (Nat.le_of_lt hkb)
        have hadv : flatB (advance k iov) = (flatB iov).drop k := advance_flat iov k
        have hlen2 : (flatB (advance k iov)).length < rest.length := by
          rw [hadv, List.length_drop]
          omega
        obtain ⟨rs2, heq, hok2, hcnt⟩ := ih (advance k iov) hrest hlen2
        refine ⟨rs2, ?_, hok2, ?_⟩
        · simp only [flushOne]
          rw [hmin, if_pos hkb]
          simp only [heq]
          rw [hadv, List.take_append_drop]
        · rw [hadv, List.length_drop] at hcnt
          simp only [List.length_cons]
          omega
      · have hmin : min k (flatB iov).length = (flatB iov).length :=
          min_eq_right (Nat.le_of_not_lt hkb)
        refine ⟨rest, ?_, hrest, ?_⟩
        · simp only [flushOne]
          rw [hmin, if_neg (lt_irrefl _)]
        · simp only [List.length_cons]
          omega

/-- Flushing a list of batches under an all-accepting, long-enough
script delivers the concatenation of the batches' bytes. -/
theorem runBatches_allok (bs : List (List (List Nat))) :
    ∀ (rs : List WRes), AllOk rs →
    ((bs.map fun b => (flatB b).length + 1).sum ≤ rs.length) →
    runBatches rs bs = some (Except.ok (flatB (bs.map flatB))) := by
  induction bs with
  | nil => intro rs _ _; rfl
  | cons b bs ih =>
    intro rs hok hsum
    simp only [List.map_cons, List.sum_cons] at hsum
    have hlen : (flatB b).length < rs.length := by omega
    obtain ⟨rs2, heq, hok2, hcnt⟩ := flushOne_allok rs b hok hlen
    have hsum2 : ((bs.map fun b => (flatB b).length + 1).sum ≤ rs2.length) := by omega
    simp only [runBatches, heq, ih rs2 hok2 hsum2, List.map_cons, flatB]

/-- The batching of segments preserves the flattened bytes: the bytes
of all batches, in order, are the pending batch's bytes followed by the
remaining segments' bytes (empty segments contribute nothing). -/
theorem buildBatches_flat (iovmax : Nat) (segs : List (List Nat)) :
    ∀ acc, segs ≠ [] →
    flatB ((buildBatches iovmax acc segs).map flatB) = flatB acc ++ flatB segs := by
  induction segs with
  | nil => intro acc h; exact absurd rfl h
  | cons s rest ih =>
    intro acc _
    by_cases hrest : rest = []
    · subst hrest
      by_cases hs : s.length > 0
      · simp [buildBatches, hs, flatB, flatB_append]
      · have hnil : s = [] := List.length_eq_zero.mp (by omega)
        subst hnil
        simp [buildBatches, flatB]
    · by_cases hs : s.length > 0
      · by_cases hc2 : acc.length + 1 = iovmax - 1
        · have hBB : buildBatches iovmax acc (s :: rest)
              = (acc ++ [s]) :: buildBatches iovmax [] rest := by
            simp [buildBatches, hs, hc2]
          rw [hBB]
          simp only [List.map_cons, flatB]
          rw [ih [] hrest]
          simp [flatB, flatB_append]
        · have hBB : buildBatches iovmax acc (s :: rest)
              = buildBatches iovmax (acc ++ [s]) rest := by
            simp [buildBatches, hs, hc2, hrest]
          rw [hBB, ih _ hrest]
          simp [flatB, flatB_append]
      · have hnil : s = [] := List.length_eq_zero.mp (by omega)
        subst hnil
        by_cases hc2 : acc.length = iovmax - 1
        · have hBB : buildBatches iovmax acc ([] :: rest)
              = acc :: buildBatches iovmax [] rest := by
            simp [buildBatches, hc2]
          rw [hBB]
          simp only [List.map_cons, flatB]
          rw [ih [] hrest]
          simp [flatB]
        · have hBB : buildBatches iovmax acc ([] :: rest)
              = buildBatches iovmax acc rest := by
            simp [buildBatches, hc2, hrest]
          rw [hBB, ih _ hrest]
          simp [flatB]

/-- Sum of per-batch costs (bytes + one mandatory call) equals total
bytes plus batch count. -/
theorem sum_len_succ (bs : List (List (List Nat))) :
    (bs.map fun b => (flatB b).length + 1).sum
      = (flatB (bs.map flatB)).length + bs.length := by
  induction bs with
  | nil => rfl
  | cons b t ih =>
    simp only [List.map_cons, List.sum_cons, flatB, List.length_append, List.length_cons, ih]
    omega

/-- C1: `write_fd` delivers every byte of every segment, in segment
order, with no duplication and no gap, even when each `writev` call
accepts only an arbitrary `k ≥ 1` bytes (first conjunct: against any
all-accepting response script with at least one response per byte plus
one per batch, the delivered stream is exactly the flattened segment
bytes); an interrupted call is retried transparently with the same
vector (second conjunct); any other error aborts the loop and is
returned as the negated error code (third conjunct). -/
theorem write_fd_delivers (iovmax : Nat) (resps : List WRes) (segs : List (List Nat)) :
    (AllOk resps →
      (flatB segs).length + (buildBatches iovmax [] segs).length ≤ resps.length →
      write_fd iovmax resps segs = some (Except.ok (flatB segs)))
    ∧ (∀ (rs : List WRes) (iov : List (List Nat)),
        flushOne (WRes.intr :: rs) iov = flushOne rs iov)
    ∧ (∀ (rs : List WRes) (iov : List (List Nat)) (e : Nat),
        flushOne (WRes.err e :: rs) iov = some (rs, Except.error (-(e : Int)))) := by
  refine ⟨?_, fun rs iov => rfl, fun rs iov e => rfl⟩
  intro hok hlen
  by_cases hsegs : segs = []
  · subst hsegs
    rfl
  · have hflat := buildBatches_flat iovmax segs [] hsegs
    simp only [flatB, List.nil_append] at hflat
    have hsum : ((buildBatches iovmax [] segs).map fun b => (flatB b).length + 1).sum
        ≤ resps.length := by
      rw [sum_len_succ, hflat]
      omega
    rw [write_fd, runBatches_allok _ resps hok hsum, hflat]

/-- C1 witness: two segments flushed through a descriptor that accepts
2, then 1, then up to 5 bytes per call deliver exactly the segments'
bytes in order. -/
theorem write_fd_delivers_witness :
    write_fd 1024 [WRes.ok 2, WRes.ok 1, WRes.ok 5, WRes.ok 9, WRes.ok 9] [[1, 2, 3], [4]]
      = some (Except.ok [1, 2, 3, 4]) :=
  (write_fd_delivers 1024 _ _).1 (by decide) (by decide)

/-! ### Copy-on-write and reference counting (C3, C4, C5, C9) -/

/-- C3: for two BufferPtrs sharing one raw buffer (so its reference
count is at least 2), calling `do_cow` on one and then mutating a byte
in place through it leaves the bytes viewed through the other
unchanged: the mutation lands on the fresh clone, never on the shared
raw buffer. -/
theorem do_cow_isolation (h : Heap) (p q : Ptr) (i : Nat) (r : Raw) (n v : Nat)
    (hp : p.raw = some i) (hq : q.raw = some i) (hb : h.bufs i = some r)
    (hn : 2 ≤ r.nref) (hi : i < h.next) :
    view (setByte (do_cow h p).1 (do_cow h p).2.1 n v) q = view h q := by
  have hne : i ≠ h.next := Nat.ne_of_lt hi
  have hne' : h.next ≠ i := (Nat.ne_of_lt hi).symm
  have hnref : 1 < r.nref := hn
  have hdec : ¬(r.nref - 1 = 0) := by omega
  simp [do_cow, clone_in_place, release, incref, setByte, view,
    hp, hq, hb, hnref, hne, hne', hdec]

/-- C3 witness: two ptrs over the shared raw `[10, 20, 30]`; after
`do_cow` on the first and overwriting its first byte with 99, the
second still views `[20, 30]`. -/
theorem do_cow_isolation_witness :
    view (setByte (do_cow hW3 ⟨some 0, 0, 3⟩).1 (do_cow hW3 ⟨some 0, 0, 3⟩).2.1 0 99)
        ⟨some 0, 1, 2⟩ = [20, 30] :=
  (do_cow_isolation hW3 ⟨some 0, 0, 3⟩ ⟨some 0, 1, 2⟩ 0 ⟨[10, 20, 30], 2⟩ 0 99
    rfl rfl rfl (by decide) (by decide)).trans rfl

/-- C4: `do_cow` on a ptr whose raw buffer is uniquely owned
(count 1) returns false and changes nothing; on a shared raw buffer
(count > 1) it returns true, rebinds the ptr (same offset and length)
to a fresh, content-identical clone with count 1, and releases one
reference on the old raw buffer. -/
theorem do_cow_returns (h : Heap) (p : Ptr) (i : Nat) (r : Raw)
    (hp : p.raw = some i) (hb : h.bufs i = some r) (hi : i < h.next) :
    (r.nref = 1 → do_cow h p = (h, p, false))
    ∧ (1 < r.nref →
        (do_cow h p).2.2 = true
        ∧ (do_cow h p).2.1 = ⟨some h.next, p.off, p.len⟩
        ∧ (do_cow h p).1.next = h.next + 1
        ∧ (do_cow h p).1.bufs h.next = some ⟨r.data, 1⟩
        ∧ (do_cow h p).1.bufs i = some ⟨r.data, r.nref - 1⟩
        ∧ i ≠ h.next) := by
  have hne : i ≠ h.next := Nat.ne_of_lt hi
  have hne' : h.next ≠ i := (Nat.ne_of_lt hi).symm
  constructor
  · intro h1
    simp [do_cow, hp, hb, h1]
  · intro hnref
    have hdec : ¬(r.nref - 1 = 0) := by omega
    refine ⟨?_, ?_, ?_, ?_, ?_, hne⟩ <;>
      simp [do_cow, clone_in_place, release, incref, hp, hb, hnref, hne, hne', hdec]

/-- C4 witness: on the uniquely owned raw `[1, 2]` `do_cow` is a no-op
returning false; on the shared raw `[3]` it returns true, the clone at
the fresh identity 2 holds `[3]` with count 1, and the old raw's count
drops to 1. -/
theorem do_cow_returns_witness :
    do_cow hW4 ⟨some 0, 0, 2⟩ = (hW4, ⟨some 0, 0, 2⟩, false)
    ∧ (do_cow hW4 ⟨some 1, 0, 1⟩).2.2 = true
    ∧ (do_cow hW4 ⟨some 1, 0, 1⟩).1.bufs 2 = some ⟨[3], 1⟩
    ∧ (do_cow hW4 ⟨some 1, 0, 1⟩).1.bufs 1 = some ⟨[3], 1⟩ := by
  have h2 := (do_cow_returns hW4 ⟨some 1, 0, 1⟩ 1 ⟨[3], 2⟩ rfl rfl (by decide)).2 (by decide)
  exact ⟨(do_cow_returns hW4 ⟨some 0, 0, 2⟩ 0 ⟨[1, 2], 1⟩ rfl rfl (by decide)).1 rfl,
    h2.1, h2.2.2.2.1, h2.2.2.2.2.1⟩

/-- C5: evaluation of `operator=` at the failing input `p = p` (the
same C++ object on both sides, raw buffer reference count 1).  The
code's increment-before-release does prevent freeing the
still-referenced raw buffer (its count stays 1), but the assignment is
*not* a no-op: `release()` zeroes the shared `_raw` field before the
code re-reads `p._raw`, so the ptr comes out null with offset and
length 0 — contradicting the claimed (and commented, buffer.cc:104)
self-assignment safety, and leaking the raw buffer. -/
theorem ptr_self_assign_eval :
    (assign_self h5 p5).2 = Ptr.mk none 0 0
    ∧ (assign_self h5 p5).1.bufs 0 = some (Raw.mk [9] 1)
    ∧ (assign_self h5 p5).2 ≠ p5 :=
  ⟨rfl, rfl, by decide⟩

/-- C9 (amended): sub-range construction `ptr(p, o, l)` aborts
(`assert(o+l <= p._len)`) exactly when the 32-bit sum
`(o + l) mod 2^32` exceeds the parent's length — so a sum that
overflows 32 bits and wraps below the parent length erroneously
passes the check — and otherwise (parent raw non-null) succeeds,
sharing the parent's raw buffer with one extra reference, offset
advanced by `o` (mod 2^32) and length `l`. -/
theorem ptr_subrange_amended (h : Heap) (p : Ptr) (o l : Nat) :
    (p.len < (o + l) % M32 → ptr_subrange h p o l = none)
    ∧ (∀ i r, (o + l) % M32 ≤ p.len → p.raw = some i → h.bufs i = some r →
        ptr_subrange h p o l =
          some (⟨fun a => if a = i then some ⟨r.data, r.nref + 1⟩ else h.bufs a, h.next⟩,
                ⟨some i, (p.off + o) % M32, l⟩)) := by
  constructor
  · intro hlt
    have hcond : ¬((o + l) % M32 ≤ p.len) := not_le.mpr hlt
    simp [ptr_subrange, hcond]
  · intro i r hle hp hb
    simp [ptr_subrange, hle, hp, hb]

/-- C9 witness: over the length-1 parent `p9`, the out-of-bounds
request `(o, l) = (2, 3)` aborts, while `(o, l) = (0, 1)` succeeds and
bumps the raw buffer's reference count to 2. -/
theorem ptr_subrange_amended_witness :
    ptr_subrange h9 p9 2 3 = none
    ∧ ptr_subrange h9 p9 0 1
        = some (⟨fun a => if a = 0 then some (Raw.mk [7] 2) else h9.bufs a, h9.next⟩,
                ⟨some 0, (p9.off + 0) % M32, 1⟩) :=
  ⟨(ptr_subrange_amended h9 p9 2 3).1 (by decide),
   (ptr_subrange_amended h9 p9 0 1).2 0 ⟨[7], 1⟩ (by decide) rfl rfl⟩

/-- C9 counterexample: with `o = 2^32 - 1` and `l = 1` the true sum
`o + l = 2^32` exceeds the parent's length 1, yet the 32-bit sum wraps
to 0, the assert passes, and construction *succeeds* — refuting the
claim that construction fails for every `o`, `l` with `o + l`
exceeding the parent's length. -/
theorem ptr_subrange_overflow_cex :
    p9.len < 4294967295 + 1
    ∧ (ptr_subrange h9 p9 4294967295 1).isSome = true :=
  ⟨by decide, by decide⟩

/-! ### base64 hooks (C6, C7) -/

/-- C6 (amended): when the armor decoder reports failure,
`decode_base64` raises a malformed-input error whose message includes
a hex dump of the *destination* list's current content (the code calls
`hexdump(oss)` on `this`, not on the encoded input `e`), and appends
no partial buffer — the destination's segments and bytes are
unchanged; on success the single decoded segment is appended. -/
theorem decode_base64_amended (u : List Nat → Option (List Nat)) (self e : List (List Nat)) :
    (u (flatB e) = none → decode_base64 u self e = Except.error (flatB self))
    ∧ (∀ d, u (flatB e) = some d → decode_base64 u self e = Except.ok (self ++ [d])) := by
  constructor
  · intro hu
    simp [decode_base64, hu]
  · intro d hu
    simp [decode_base64, hu]

/-- C6 witness: a failing decode errors with the destination's bytes
dumped; a succeeding decode appends exactly the decoded segment. -/
theorem decode_base64_amended_witness :
    decode_base64 u6 [[1]] [[65]] = Except.error [1]
    ∧ decode_base64 u6b [[1]] [[65]] = Except.ok [[1], [42]] :=
  ⟨(decode_base64_amended u6 [[1]] [[65]]).1 rfl,
   (decode_base64_amended u6b [[1]] [[65]]).2 [42] rfl⟩

/-- C6 counterexample: decoding the malformed input `[[65, 66]]` into
the destination `[[1, 2, 3]]` raises an error carrying the hex dump of
`[1, 2, 3]` — the destination's bytes — which differ from the
offending encoded input's bytes `[65, 66]`, refuting the claim that
the error includes a hex dump of the encoded input. -/
theorem decode_base64_hexdump_cex :
    decode_base64 u6 [[1, 2, 3]] [[65, 66]] = Except.error [1, 2, 3]
    ∧ flatB [[65, 66]] = [65, 66]
    ∧ ([1, 2, 3] : List Nat) ≠ [65, 66] :=
  ⟨rfl, rfl, by decide⟩

/-- C7 (amended): `encode_base64` allocates exactly
`⌊4·L/3⌋ + 3` destination bytes — `length() * 4 / 3 + 3` in 32-bit
unsigned arithmetic, which is the floor, not the ceiling, of `4L/3`,
the two differing whenever `L` is not a multiple of 3 — sets the
destination's length to the encoder's reported output size, and
appends that single segment to the output list. -/
theorem encode_base64_amended (armor : List Nat → List Nat) (self o : List (List Nat)) :
    encode_base64 armor self o
      = (encode_alloc_size (flatB self).length, o ++ [armor (flatB self)])
    ∧ ((flatB self).length < 1073741824 →
        encode_alloc_size (flatB self).length = (flatB self).length * 4 / 3 + 3) := by
  refine ⟨rfl, ?_⟩
  intro hL
  have h4 : (flatB self).length * 4 < M32 := by
    have hm : M32 = 4294967296 := by norm_num [M32]
    omega
  simp only [encode_alloc_size, Nat.mod_eq_of_lt h4]

/-- C7 witness: encoding the one-byte list `[[65]]` allocates
`⌊4/3⌋ + 3 = 4` bytes and appends the encoder's single output
segment. -/
theorem encode_base64_amended_witness :
    encode_base64 armor7 [[65]] [] = (encode_alloc_size 1, [[65, 61]])
    ∧ encode_alloc_size 1 = 1 * 4 / 3 + 3 :=
  ⟨(encode_base64_amended armor7 [[65]] []).1,
   (encode_base64_amended armor7 [[65]] []).2 (by decide)⟩

/-- C7 counterexample: at logical length `L = 1` the code allocates
`encode_alloc_size 1 = ⌊4/3⌋ + 3 = 4` bytes, while the claimed
`⌈4·L/3⌉ + 3 = (4·1 + 2)/3 + 3 = 5`, refuting the claimed allocation
size. -/
theorem encode_base64_alloc_cex :
    encode_alloc_size 1 = 4
    ∧ (4 * 1 + 2) / 3 + 3 = 5
    ∧ encode_alloc_size 1 ≠ (4 * 1 + 2) / 3 + 3 :=
  ⟨by decide, by decide, by decide⟩

/-! ### read_file (C8, C10) -/

/-- C8: once the open succeeded the descriptor is closed before
returning on every path (read error, short read, full read); and on a
short read — fewer bytes than `fstat` reported — `read_file` still
returns 0 (success), appends one segment holding exactly the bytes
actually read, and logs only a premature-EOF warning, suppressed when
`silent`. -/
theorem read_file_short_read (env : FileEnv) (silent : Bool) (l : List (List Nat))
    (d : List Nat) (hopen : env.openResult = Except.ok ()) :
    (read_file env silent l).fdClosed = true
    ∧ (env.read (env.statSize.getD 0) = Except.ok d →
        d.length < env.statSize.getD 0 →
        read_file env silent l
          = ⟨0, l ++ [d], true, true, if silent then [] else [LogMsg.prematureEOF]⟩) := by
  constructor
  · simp only [read_file, hopen]
    rcases henv : env.read (env.statSize.getD 0) with e | d2 <;> simp [henv]
  · intro hread hlt
    have hne : d.length ≠ env.statSize.getD 0 := Nat.ne_of_lt hlt
    simp only [read_file, hopen, hread]
    simp [hne]

/-- C8 witness: stat reports 4 bytes but only `[1, 2]` are read: the
call succeeds with the 2-byte segment appended, warns, and the
descriptor is closed. -/
theorem read_file_short_read_witness :
    (read_file env8 false []).fdClosed = true
    ∧ read_file env8 false [] = ⟨0, [[1, 2]], true, true, [LogMsg.prematureEOF]⟩ := by
  have h := read_file_short_read env8 false [] [1, 2] rfl
  refine ⟨h.1, ?_⟩
  have h2 := h.2 rfl (by decide)
  simpa using h2

/-- C10: when `fstat` fails after a successful open, no error is
reported: the zero-initialized `struct stat` makes the size read as 0,
zero bytes are requested and read, a zero-length segment is appended,
nothing is logged, and the call returns 0 (success). -/
theorem read_file_fstat_unchecked (env : FileEnv) (silent : Bool) (l : List (List Nat))
    (hopen : env.openResult = Except.ok ()) (hstat : env.statSize = none)
    (hread : env.read 0 = Except.ok []) :
    read_file env silent l = ⟨0, l ++ [[]], true, true, []⟩ := by
  simp only [read_file, hopen, hstat, Option.getD_none, hread]
  simp

/-- C10 witness: in the failing-fstat environment the call returns 0
and appends an empty segment after the existing one. -/
theorem read_file_fstat_unchecked_witness :
    read_file env10 false [[5]] = ⟨0, [[5], []], true, true, []⟩ :=
  read_file_fstat_unchecked env10 false [[5]] rfl rfl rfl
